import Mathlib

/- A shallow embedding of the TaskTracker repository, covering the task store of
src/testfile.py (namespace Testfile) and the partial draft in src/TaskTracker.py
(namespace TrackerPy), together with proofs about the store's persistence
contract, id assignment, listing, and invariants.

Modelling conventions: Python dicts become insertion-ordered association lists;
the backing file becomes an explicit `FileState` value carried beside the live
dict; `datetime.now().isoformat()` becomes an explicit timestamp argument; a
raised exception becomes an `Except`/`Option` error value. Record fields read
from the backing file are typed as the program's own serializer produces them
(integer id, string description/status/created time); Python would defer some of
those type errors to later operations. -/

/-- JSON scalar values occurring in the backing-file records. -/
inductive JVal where
  | num (n : Int)
  | str (s : String)
  deriving DecidableEq

/-- A parsed JSON object: an association list of string keys to values. -/
abbrev Record := List (String × JVal)

/-- The backing file: absent, present but not parseable as a JSON object (for
example truncated to empty), or a parsed JSON object mapping string-encoded ids
to records. -/
inductive FileState where
  | absent
  | blank
  | obj (entries : List (String × Record))
  deriving DecidableEq

/-- Python exceptions surfaced by the modelled code paths. `badFieldType` is the
embedding's rejection of a record field whose JSON type differs from the one the
program's serializer writes. -/
inductive Err where
  | keyError (k : String)
  | valueError
  | jsonDecodeError
  | badFieldType
  | typeError
  | attributeError
  deriving DecidableEq

/-- Decimal digit character: models the digits of Python `str` on integers. -/
def digitChar (d : Nat) : Char := Char.ofNat (48 + d)

/-- Whether a character is a decimal digit. -/
def isDigitChar (c : Char) : Bool := 48 ≤ c.toNat && c.toNat ≤ 57

/-- Numeric value of a digit character. -/
def digitVal (c : Char) : Nat := c.toNat - 48

/-- Fuel-indexed most-significant-first decimal digit list of a number; the fuel
is instantiated with the number itself, which always suffices. -/
def natCharsAux : Nat → Nat → List Char
  | 0, _ => []
  | _ + 1, 0 => []
  | fuel + 1, n + 1 => natCharsAux fuel ((n + 1) / 10) ++ [digitChar ((n + 1) % 10)]

/-- Decimal digit string of a natural number. -/
def natChars (n : Nat) : List Char := if n = 0 then ['0'] else natCharsAux n n

/-- Models Python `str(i)` on an integer: its decimal form. -/
def py_str_int (i : Int) : String :=
  ⟨if i < 0 then '-' :: natChars i.natAbs else natChars i.natAbs⟩

/-- Accumulating decimal parse of a digit list. -/
def parseNatFold (cs : List Char) : Nat := cs.foldl (fun a c => a * 10 + digitVal c) 0

/-- Parse of a nonempty all-digit character list. -/
def py_int_digits (cs : List Char) : Option Nat :=
  if cs.isEmpty then none
  else if cs.all isDigitChar then some (parseNatFold cs) else none

/-- Parse of a character list as an optionally negated decimal numeral. -/
def py_int_chars : List Char → Option Int
  | [] => none
  | c :: cs =>
    if c = '-' then (py_int_digits cs).map (fun n => -(n : Int))
    else (py_int_digits (c :: cs)).map (fun n => (n : Int))

/-- Models Python `int(s)` on a string: an optional minus sign followed by
decimal digits; any other shape raises `ValueError`, modelled as `none`. -/
def py_int (s : String) : Option Int := py_int_chars s.data

/-- A Python value passed as a task-id argument: the CLI passes ints, but every
store operation first normalizes the argument with `str(task_id)`. -/
inductive PyVal where
  | int (n : Int)
  | str (s : String)

/-- Models Python `str(v)` on an id argument. -/
def py_str_val : PyVal → String
  | .int n => py_str_int n
  | .str s => s

/-- The `TaskStatus` enumeration (testfile.py lines 6-10, TaskTracker.py
lines 12-15). -/
inductive TaskStatus where
  | TODO
  | IN_PROGRESS
  | DONE
  deriving DecidableEq

/-- The string value of each enumeration member. -/
def TaskStatus.value : TaskStatus → String
  | .TODO => "todo"
  | .IN_PROGRESS => "in-progress"
  | .DONE => "done"

/-- Models the enum call `TaskStatus(s)` on a string: the member with that
value, or `none` for the `ValueError` raised on an unrecognized string. -/
def TaskStatus.fromValue (s : String) : Option TaskStatus :=
  if s = "todo" then some .TODO
  else if s = "in-progress" then some .IN_PROGRESS
  else if s = "done" then some .DONE
  else none

/-- Lookup in a Python dict modelled as an association list. -/
def dictGet {α : Type} (k : String) : List (String × α) → Option α
  | [] => none
  | p :: rest => if p.1 = k then some p.2 else dictGet k rest

/-- Models `d[k] = v`: replaces in place if the key is present, else appends
(Python dicts preserve insertion order). -/
def dictSet {α : Type} (k : String) (v : α) : List (String × α) → List (String × α)
  | [] => [(k, v)]
  | p :: rest => if p.1 = k then (k, v) :: rest else p :: dictSet k v rest

/-- Models `del d[k]`. -/
def dictErase {α : Type} (k : String) : List (String × α) → List (String × α)
  | [] => []
  | p :: rest => if p.1 = k then rest else p :: dictErase k rest

/-- Models an in-place mutation of the object stored at key `k`. -/
def dictModify {α : Type} (k : String) (f : α → α) : List (String × α) → List (String × α)
  | [] => []
  | p :: rest => if p.1 = k then (p.1, f p.2) :: rest else p :: dictModify k f rest

/-- The keys of a dict, in insertion order. -/
def keysOf {α : Type} (l : List (String × α)) : List String := l.map Prod.fst

/-- Models `d.values()`, in insertion order. -/
def dictValues {α : Type} (l : List (String × α)) : List α := l.map Prod.snd

/-- Field access `task_data[k]`; a missing key raises KeyError. -/
def field (r : Record) (k : String) : Except Err JVal :=
  match dictGet k r with
  | some v => .ok v
  | none => .error (.keyError k)

/-- Requires an integer field (the type the serializer writes for `id`). -/
def asInt : JVal → Except Err Int
  | .num n => .ok n
  | _ => .error .badFieldType

/-- Requires a string field. -/
def asStr : JVal → Except Err String
  | .str s => .ok s
  | _ => .error .badFieldType

/-- Models `TaskStatus(status) if isinstance(status, str) else status` for a
value read from the file: a string outside the enumeration raises ValueError;
the embedding requires the field to be a string. -/
def asStatus : JVal → Except Err TaskStatus
  | .str s =>
    match TaskStatus.fromValue s with
    | some st => .ok st
    | none => .error .valueError
  | _ => .error .badFieldType

/-- The keys of the store parsed back to integers, modelling the generator
`int(task_id) for task_id in self.tasks.keys()`; `none` models the ValueError
raised on a key that is not a decimal numeral. -/
def idsOfKeys {α : Type} : List (String × α) → Option (List Int)
  | [] => some []
  | p :: rest => do
    let i ← py_int p.1
    let is ← idsOfKeys rest
    pure (i :: is)

/-- Maximum of a list of ids (Python `max`; the `[]` case is unreachable at the
call sites, which guard on a nonempty dict). -/
def maxOf : List Int → Int
  | [] => 0
  | i :: is => is.foldl max i

namespace Testfile

/-- A task (testfile.py lines 12-19): id, description, status, creation time. -/
structure Task where
  id : Int
  description : String
  status : TaskStatus
  created_at : String
  deriving DecidableEq

/-- Task.to_dict (testfile.py lines 33-40). -/
def Task.to_dict (t : Task) : Record :=
  [("id", .num t.id), ("description", .str t.description),
   ("status", .str t.status.value), ("created_at", .str t.created_at)]

/-- The task store (testfile.py lines 45-51): the dict `self.tasks` together
with the contents of the backing file `self.filename`. -/
structure TaskTracker where
  tasks : List (String × Task)
  file : FileState
  deriving DecidableEq

/-- Construction of one Task from one record inside load_tasks (testfile.py
lines 58-64): the four fields are read in source order, then converted. -/
def buildTask (r : Record) : Except Err Task := do
  let idv ← field r "id"
  let dv ← field r "description"
  let sv ← field r "status"
  let cv ← field r "created_at"
  let i ← asInt idv
  let d ← asStr dv
  let st ← asStatus sv
  let c ← asStr cv
  .ok { id := i, description := d, status := st, created_at := c }

/-- The loop of load_tasks (testfile.py lines 58-65): builds each record's task
and inserts it at key `str(task.id)`; on the first failing record the exception
propagates, keeping the insertions already made (the second component reports
the raised error, if any). -/
def loadFold : List (String × Task) → List (String × Record) → List (String × Task) × Option Err
  | acc, [] => (acc, none)
  | acc, (_, r) :: rest =>
    match buildTask r with
    | .ok t => loadFold (dictSet (py_str_int t.id) t acc) rest
    | .error e => (acc, some e)

/-- The serialized collection `{str(task_id): task.to_dict() ...}`
(testfile.py line 69); the keys are already strings, and `str` on a string is
the identity. -/
def serialize (tasks : List (String × Task)) : List (String × Record) :=
  tasks.map (fun p => (p.1, p.2.to_dict))

/-- save_tasks (testfile.py lines 67-71): overwrites the backing file with the
full serialized collection. -/
def save_tasks (tr : TaskTracker) : TaskTracker :=
  { tr with file := .obj (serialize tr.tasks) }

/-- A fresh tracker: `TaskTracker.__init__` and its load_tasks call (testfile.py
lines 48-65). An absent file yields an empty collection; an unparseable file
raises out of `json.load`; a parsed object is loaded record by record. -/
def init (fs : FileState) : Except Err TaskTracker :=
  match fs with
  | .absent => .ok { tasks := [], file := fs }
  | .blank => .error .jsonDecodeError
  | .obj entries =>
    match loadFold [] entries with
    | (ts, none) => .ok { tasks := ts, file := fs }
    | (_, some e) => .error e

/-- get_next_id (testfile.py lines 73-77): 1 on an empty dict, else
`max(int(task_id) for task_id in keys) + 1`. -/
def get_next_id (tr : TaskTracker) : Option Int :=
  match tr.tasks with
  | [] => some 1
  | _ =>
    match idsOfKeys tr.tasks with
    | some ids => some (maxOf ids + 1)
    | none => none

/-- add_task (testfile.py lines 79-85); `now` is the timestamp
`datetime.now().isoformat()` captured at creation. -/
def add_task (tr : TaskTracker) (description now : String) : Option (Task × TaskTracker) :=
  match get_next_id tr with
  | none => none
  | some task_id =>
    let task : Task := { id := task_id, description := description,
                         status := .TODO, created_at := now }
    let tr1 : TaskTracker := { tr with tasks := dictSet (py_str_int task_id) task tr.tasks }
    some (task, save_tasks tr1)

/-- get_task (testfile.py lines 87-89): `self.tasks.get(str(task_id))`. -/
def get_task (tr : TaskTracker) (task_id : PyVal) : Option Task :=
  dictGet (py_str_val task_id) tr.tasks

/-- update_task (testfile.py lines 91-98): if the task is found its description
is mutated in place and the collection persisted, returning True; else False. -/
def update_task (tr : TaskTracker) (task_id : PyVal) (new_description : String) :
    Bool × TaskTracker :=
  match get_task tr task_id with
  | some _ =>
    (true, save_tasks { tr with
      tasks := dictModify (py_str_val task_id)
        (fun t => { t with description := new_description }) tr.tasks })
  | none => (false, tr)

/-- delete_task (testfile.py lines 100-106): membership test
`str(task_id) in self.tasks`, then `del` and persist. -/
def delete_task (tr : TaskTracker) (task_id : PyVal) : Bool × TaskTracker :=
  if (dictGet (py_str_val task_id) tr.tasks).isSome then
    (true, save_tasks { tr with tasks := dictErase (py_str_val task_id) tr.tasks })
  else (false, tr)

/-- mark_in_progress (testfile.py lines 108-115). -/
def mark_in_progress (tr : TaskTracker) (task_id : PyVal) : Bool × TaskTracker :=
  match get_task tr task_id with
  | some _ =>
    (true, save_tasks { tr with
      tasks := dictModify (py_str_val task_id)
        (fun t => { t with status := .IN_PROGRESS }) tr.tasks })
  | none => (false, tr)

/-- mark_done (testfile.py lines 117-124). -/
def mark_done (tr : TaskTracker) (task_id : PyVal) : Bool × TaskTracker :=
  match get_task tr task_id with
  | some _ =>
    (true, save_tasks { tr with
      tasks := dictModify (py_str_val task_id)
        (fun t => { t with status := .DONE }) tr.tasks })
  | none => (false, tr)

/-- Stable sort by numeric id, Python `sorted(..., key=lambda t: t.id)`. -/
def sortById (ts : List Task) : List Task :=
  List.insertionSort (fun a b => a.id ≤ b.id) ts

instance : IsTotal Task (fun a b => a.id ≤ b.id) := ⟨fun a b => Int.le_total a.id b.id⟩

instance : IsTrans Task (fun a b => a.id ≤ b.id) := ⟨fun _ _ _ h1 h2 => le_trans h1 h2⟩

/-- get_all_tasks (testfile.py lines 126-128). -/
def get_all_tasks (tr : TaskTracker) : List Task :=
  sortById (dictValues tr.tasks)

/-- The status argument of get_tasks_by_status: a string or an enum member. -/
inductive StatusArg where
  | str (s : String)
  | enum (st : TaskStatus)

/-- Models `TaskStatus(status) if isinstance(status, str) else status`. -/
def statusEnum : StatusArg → Option TaskStatus
  | .str s => TaskStatus.fromValue s
  | .enum st => some st

/-- get_tasks_by_status (testfile.py lines 130-136): ValueError on an
unrecognized status string, else the matching tasks sorted by id. -/
def get_tasks_by_status (tr : TaskTracker) (status : StatusArg) : Except Err (List Task) :=
  match statusEnum status with
  | none => .error .valueError
  | some st => .ok (sortById ((dictValues tr.tasks).filter (fun t => decide (t.status = st))))

/-- One public store operation, for the reachability statements; returned values
are discarded, and an operation that raises leaves the state its partial
execution produced. -/
inductive Op where
  | load
  | add (description now : String)
  | update (task_id : PyVal) (new_description : String)
  | delete (task_id : PyVal)
  | markIP (task_id : PyVal)
  | markDone (task_id : PyVal)

/-- The state after one operation. A load re-reads the tracker's own backing
file into the live dict (load_tasks does not clear it), keeping the entries
inserted before any failing record; an add whose get_next_id raises changes
nothing, since the raise happens before the insertion. -/
def applyOp (tr : TaskTracker) : Op → TaskTracker
  | .load =>
    match tr.file with
    | .absent => tr
    | .blank => tr
    | .obj entries => { tr with tasks := (loadFold tr.tasks entries).1 }
  | .add d now =>
    match add_task tr d now with
    | some (_, tr1) => tr1
    | none => tr
  | .update v d => (update_task tr v d).2
  | .delete v => (delete_task tr v).2
  | .markIP v => (mark_in_progress tr v).2
  | .markDone v => (mark_done tr v).2

/-- States reachable from a freshly constructed tracker by store operations. -/
inductive Reachable : TaskTracker → Prop where
  | start (fs : FileState) (tr : TaskTracker) : init fs = .ok tr → Reachable tr
  | step (tr : TaskTracker) (op : Op) : Reachable tr → Reachable (applyOp tr op)

/-- The store invariant: the dict keys are distinct, and each entry is indexed
by the string form of its task's id, as every insertion site maintains. -/
def WFt (tasks : List (String × Task)) : Prop :=
  (keysOf tasks).Nodup ∧ ∀ p ∈ tasks, p.1 = py_str_int p.2.id

/-- The invariant on a tracker state. -/
def WF (tr : TaskTracker) : Prop := WFt tr.tasks

/-- A sequence of add_task calls; returns the assigned ids in order and the
final state, `none` if some call raised. -/
def addAll : TaskTracker → List (String × String) → Option (List Int × TaskTracker)
  | tr, [] => some ([], tr)
  | tr, (d, now) :: rest =>
    match add_task tr d now with
    | none => none
    | some (t, tr1) =>
      match addAll tr1 rest with
      | none => none
      | some (ids, tr2) => some (t.id :: ids, tr2)

/-- The empty tracker obtained from an absent backing file. -/
def tr0 : TaskTracker := { tasks := [], file := .absent }

/-- The task created by the first add in the concrete runs below. -/
def task1 : Task := { id := 1, description := "a", status := .TODO, created_at := "t1" }

/-- The task created by the second add in the concrete runs below. -/
def task2 : Task := { id := 2, description := "b", status := .TODO, created_at := "t2" }

/-- The state of `tr0` after adding task 1. -/
def trS1 : TaskTracker :=
  { tasks := [("1", task1)], file := .obj (serialize [("1", task1)]) }

/-- The state of `tr0` after adding tasks 1 and 2. -/
def trS2 : TaskTracker :=
  { tasks := [("1", task1), ("2", task2)],
    file := .obj (serialize [("1", task1), ("2", task2)]) }

/-- Whether the backing file currently holds exactly the serialized form of the
live collection. -/
def persisted (tr : TaskTracker) : Prop := tr.file = .obj (serialize tr.tasks)

/-- The task created by adding description `d` at time `t3` to `trS1`. -/
def task2d : Task := { id := 2, description := "d", status := .TODO, created_at := "t3" }

/-- The state of `trS1` after adding `task2d`. -/
def trAdd3 : TaskTracker :=
  { tasks := [("1", task1), ("2", task2d)],
    file := .obj (serialize [("1", task1), ("2", task2d)]) }

/-- A record whose status string is not one of the three enumerated values. -/
def badRec : Record :=
  [("id", .num 1), ("description", .str "x"), ("status", .str "later"),
   ("created_at", .str "t")]

/-- A parsed backing file containing `badRec`. -/
def badEntries : List (String × Record) := [("1", badRec)]

end Testfile

namespace TrackerPy

/-- A task of TaskTracker.py (lines 17-22). -/
structure Task where
  id : Int
  taskDesc : String
  status : TaskStatus
  createdOn : String
  deriving DecidableEq

/-- Task.task_dict (TaskTracker.py lines 36-42): the creation-time key is
spelled `created`. -/
def Task.task_dict (t : Task) : Record :=
  [("id", .num t.id), ("description", .str t.taskDesc),
   ("status", .str t.status.value), ("created", .str t.createdOn)]

/-- The draft task store of TaskTracker.py (lines 47-51). -/
structure TaskTracker where
  tasks : List (String × Task)
  file : FileState
  deriving DecidableEq

/-- load_tasks (TaskTracker.py lines 53-64): the guard calls `os.path.exist`,
an attribute that does not exist, so every call raises AttributeError before
the file is touched or any task is built. -/
def load_tasks (_tr : TaskTracker) : Except Err (List (String × Task)) :=
  .error .attributeError

/-- The record construction inside the load loop (TaskTracker.py lines 57-64),
which reads the creation time back from the same key `created` that task_dict
writes; unreachable in execution because of the `os.path.exist` error. -/
def buildTask (r : Record) : Except Err Task := do
  let idv ← field r "id"
  let dv ← field r "description"
  let sv ← field r "status"
  let cv ← field r "created"
  let i ← asInt idv
  let d ← asStr dv
  let st ← asStatus sv
  let c ← asStr cv
  .ok { id := i, taskDesc := d, status := st, createdOn := c }

/-- save_task (TaskTracker.py lines 66-69): builds the serialized mapping, opens
the backing file for writing, which truncates it, then calls
`json.dumps(data, f, indent=2)`; `json.dumps` accepts no file argument, so a
TypeError is raised and nothing is written: the file is left truncated and the
method never returns normally. -/
def save_task (tr : TaskTracker) : TaskTracker × Except Err Unit :=
  let _data := tr.tasks.map (fun p => (p.1, p.2.task_dict))
  ({ tr with file := .blank }, .error .typeError)

/-- next_task_id (TaskTracker.py lines 71-74), the same maximum-based scheme as
testfile.py. -/
def next_task_id (tr : TaskTracker) : Option Int :=
  match tr.tasks with
  | [] => some 1
  | _ =>
    match idsOfKeys tr.tasks with
    | some ids => some (maxOf ids + 1)
    | none => none

/-- The task built by the test lines of TaskTracker.py (line 78). -/
def taskPy1 : Task :=
  { id := 1, taskDesc := "Make Program", status := .TODO,
    createdOn := "2025-12-01T00:00:00" }

/-- A draft-store state holding `taskPy1`, with a backing file recording it. -/
def trPy1 : TaskTracker :=
  { tasks := [("1", taskPy1)], file := .obj [("1", taskPy1.task_dict)] }

end TrackerPy

/- Theorems. First the coherence of the decimal string model: Python `int`
applied to Python `str` of an integer gives the integer back. -/

theorem digitVal_digitChar {d : Nat} (h : d < 10) : digitVal (digitChar d) = d := by
  interval_cases d <;> decide
theorem isDigitChar_digitChar {d : Nat} (h : d < 10) : isDigitChar (digitChar d) = true := by
  interval_cases d <;> decide
theorem natCharsAux_zero (fuel : Nat) : natCharsAux fuel 0 = [] := by
  cases fuel <;> rfl
theorem parseNatFold_append (cs : List Char) (c : Char) :
    parseNatFold (cs ++ [c]) = parseNatFold cs * 10 + digitVal c := by
  simp [parseNatFold, List.foldl_append]

theorem natCharsAux_spec : ∀ fuel n : Nat, 0 < n → n ≤ fuel →
    (natCharsAux fuel n).all isDigitChar = true ∧ natCharsAux fuel n ≠ [] ∧
      parseNatFold (natCharsAux fuel n) = n := by
  intro fuel
  induction fuel with
  | zero => intro n h1 h2; omega
  | succ f ih =>
    intro n h1 h2
    obtain ⟨m, rfl⟩ : ∃ m, n = m + 1 := ⟨n - 1, by omega⟩
    have heq : natCharsAux (f + 1) (m + 1) =
        natCharsAux f ((m + 1) / 10) ++ [digitChar ((m + 1) % 10)] := rfl
    have hmod : (m + 1) % 10 < 10 := by omega
    by_cases hdiv : (m + 1) / 10 = 0
    · have hm : (m + 1) % 10 = m + 1 := by omega
      rw [heq, hdiv, natCharsAux_zero]
      refine ⟨by simp [isDigitChar_digitChar hmod], by simp, ?_⟩
      have hp : parseNatFold [digitChar ((m + 1) % 10)] = digitVal (digitChar ((m + 1) % 10)) := by
        simp [parseNatFold]
      rw [List.nil_append, hp, digitVal_digitChar hmod, hm]
    · have hle : (m + 1) / 10 ≤ f := by omega
      obtain ⟨ha, hne, hp⟩ := ih ((m + 1) / 10) (by omega) hle
      rw [heq]
      refine ⟨?_, by simp, ?_⟩
      · simp only [List.all_append, ha, Bool.true_and, List.all_cons, List.all_nil,
          Bool.and_true]
        exact isDigitChar_digitChar hmod
      · rw [parseNatFold_append, hp, digitVal_digitChar hmod]
        omega

theorem natChars_spec (n : Nat) :
    (natChars n).all isDigitChar = true ∧ natChars n ≠ [] ∧
      parseNatFold (natChars n) = n := by
  by_cases h : n = 0
  · subst h; refine ⟨by decide, by decide, by decide⟩
  · have := natCharsAux_spec n n (by omega) le_rfl
    simpa [natChars, h] using this

theorem py_int_digits_natChars (n : Nat) : py_int_digits (natChars n) = some n := by
  obtain ⟨h1, h2, h3⟩ := natChars_spec n
  have he : (natChars n).isEmpty = false := by
    cases hc : natChars n with
    | nil => exact absurd hc h2
    | cons c cs => rfl
  simp [py_int_digits, he, h1, h3]

theorem natChars_head_digit (n : Nat) :
    ∃ c cs, natChars n = c :: cs ∧ isDigitChar c = true := by
  obtain ⟨h1, h2, _⟩ := natChars_spec n
  cases hc : natChars n with
  | nil => exact absurd hc h2
  | cons c cs =>
    refine ⟨c, cs, rfl, ?_⟩
    rw [hc] at h1
    exact List.all_eq_true.mp h1 c (by simp)

theorem py_int_py_str_int (i : Int) : py_int (py_str_int i) = some i := by
  obtain ⟨c, cs, hc, hd⟩ := natChars_head_digit i.natAbs
  have hcm : c ≠ '-' := by
    intro h; rw [h] at hd; exact absurd hd (by decide)
  by_cases hi : i < 0
  · have hs : py_str_int i = ⟨'-' :: natChars i.natAbs⟩ := by simp [py_str_int, hi]
    rw [hs]
    show py_int_chars ('-' :: natChars i.natAbs) = some i
    rw [py_int_chars, if_pos rfl, py_int_digits_natChars]
    show some (-((i.natAbs : Nat) : Int)) = some i
    congr 1
    omega
  · have hs : py_str_int i = ⟨natChars i.natAbs⟩ := by simp [py_str_int, hi]
    rw [hs]
    show py_int_chars (natChars i.natAbs) = some i
    rw [hc, py_int_chars, if_neg hcm, ← hc, py_int_digits_natChars]
    show some (((i.natAbs : Nat) : Int)) = some i
    congr 1
    omega

/- Lemmas about the dict model. -/

theorem keysOf_nil {α : Type} : keysOf ([] : List (String × α)) = [] := rfl

theorem keysOf_cons {α : Type} (p : String × α) (l : List (String × α)) :
    keysOf (p :: l) = p.1 :: keysOf l := rfl

theorem dictGet_eq_none {α : Type} (k : String) :
    ∀ l : List (String × α), dictGet k l = none ↔ k ∉ keysOf l := by
  intro l
  induction l with
  | nil => simp [dictGet, keysOf_nil]
  | cons p rest ih =>
    rw [keysOf_cons]
    by_cases h : p.1 = k
    · simp [dictGet, h]
    · simp [dictGet, h, ih, Ne.symm h]

theorem dictGet_mem {α : Type} {l : List (String × α)} {k : String} {v : α}
    (hn : (keysOf l).Nodup) (hm : (k, v) ∈ l) : dictGet k l = some v := by
  induction l with
  | nil => cases hm
  | cons p rest ih =>
    rw [keysOf_cons, List.nodup_cons] at hn
    rcases List.mem_cons.mp hm with h | h
    · rw [← h]; simp [dictGet]
    · have hk : p.1 ≠ k := by
        intro hpk
        exact hn.1 (hpk ▸ List.mem_map.mpr ⟨(k, v), h, rfl⟩)
      simp only [dictGet, hk, if_false]
      exact ih hn.2 h

theorem dictGet_dictSet_self {α : Type} (k : String) (v : α) :
    ∀ l : List (String × α), dictGet k (dictSet k v l) = some v := by
  intro l
  induction l with
  | nil => simp [dictGet, dictSet]
  | cons p rest ih =>
    by_cases h : p.1 = k
    · simp [dictSet, h, dictGet]
    · simp [dictSet, h, dictGet, ih]

theorem dictGet_dictSet_ne {α : Type} {k1 k : String} (h : k1 ≠ k) (v : α) :
    ∀ l : List (String × α), dictGet k1 (dictSet k v l) = dictGet k1 l := by
  intro l
  induction l with
  | nil => simp [dictGet, dictSet, Ne.symm h]
  | cons p rest ih =>
    by_cases hp : p.1 = k
    · have hpk : p.1 ≠ k1 := by rw [hp]; exact Ne.symm h
      simp [dictSet, hp, dictGet, Ne.symm h, hpk]
    · have hds : dictSet k v (p :: rest) = p :: dictSet k v rest := by simp [dictSet, hp]
      rw [hds]
      by_cases hp1 : p.1 = k1
      · simp [dictGet, hp1]
      · simp [dictGet, hp1, ih]

theorem dictSet_not_mem {α : Type} {k : String} (v : α) :
    ∀ {l : List (String × α)}, k ∉ keysOf l → dictSet k v l = l ++ [(k, v)] := by
  intro l
  induction l with
  | nil => intro _; rfl
  | cons p rest ih =>
    intro h
    rw [keysOf_cons] at h
    have h1 : p.1 ≠ k := fun hp => h (by simp [hp])
    have h2 : k ∉ keysOf rest := fun hk => h (by simp [hk])
    simp [dictSet, h1, ih h2]

theorem keysOf_append {α : Type} (l1 l2 : List (String × α)) :
    keysOf (l1 ++ l2) = keysOf l1 ++ keysOf l2 := by
  simp [keysOf]

theorem mem_dictSet {α : Type} {k : String} {v : α} :
    ∀ {l : List (String × α)} {p : String × α}, p ∈ dictSet k v l → p = (k, v) ∨ p ∈ l := by
  intro l
  induction l with
  | nil => intro p hp; simp [dictSet] at hp; exact Or.inl hp
  | cons q rest ih =>
    intro p hp
    by_cases h : q.1 = k
    · simp only [dictSet, h, if_true] at hp
      rcases List.mem_cons.mp hp with h1 | h1
      · exact Or.inl h1
      · exact Or.inr (List.mem_cons.mpr (Or.inr h1))
    · simp only [dictSet, h, if_false] at hp
      rcases List.mem_cons.mp hp with h1 | h1
      · exact Or.inr (List.mem_cons.mpr (Or.inl h1))
      · rcases ih h1 with h2 | h2
        · exact Or.inl h2
        · exact Or.inr (List.mem_cons.mpr (Or.inr h2))

theorem keysOf_dictSet_mem {α : Type} {k : String} (v : α) :
    ∀ {l : List (String × α)}, k ∈ keysOf l → keysOf (dictSet k v l) = keysOf l := by
  intro l
  induction l with
  | nil => intro h; cases h
  | cons p rest ih =>
    intro h
    by_cases hp : p.1 = k
    · simp only [dictSet, hp, if_true, keysOf_cons]
    · have hr : k ∈ keysOf rest := by
        rw [keysOf_cons] at h
        rcases List.mem_cons.mp h with h1 | h1
        · exact absurd h1.symm hp
        · exact h1
      simp only [dictSet, hp, if_false, keysOf_cons, ih hr]

theorem keysOf_dictSet_nodup {α : Type} {k : String} (v : α)
    {l : List (String × α)} (hn : (keysOf l).Nodup) : (keysOf (dictSet k v l)).Nodup := by
  by_cases h : k ∈ keysOf l
  · rw [keysOf_dictSet_mem v h]; exact hn
  · rw [dictSet_not_mem v h, keysOf_append]
    rw [List.nodup_append]
    refine ⟨hn, by simp [keysOf], ?_⟩
    intro a ha hb
    simp [keysOf] at hb
    rw [hb] at ha
    exact h ha

theorem dictErase_sublist {α : Type} (k : String) :
    ∀ l : List (String × α), (dictErase k l).Sublist l := by
  intro l
  induction l with
  | nil => simp [dictErase]
  | cons p rest ih =>
    by_cases h : p.1 = k
    · simp only [dictErase, h, if_true]
      exact List.sublist_cons_self p rest
    · simp only [dictErase, h, if_false]
      exact ih.cons₂ p

theorem keysOf_dictModify {α : Type} (k : String) (f : α → α) :
    ∀ l : List (String × α), keysOf (dictModify k f l) = keysOf l := by
  intro l
  induction l with
  | nil => rfl
  | cons p rest ih =>
    by_cases h : p.1 = k
    · simp only [dictModify, h, if_true, keysOf_cons]
    · simp only [dictModify, h, if_false, keysOf_cons, ih]

theorem mem_dictModify {α : Type} {k : String} {f : α → α} :
    ∀ {l : List (String × α)} {p : String × α}, p ∈ dictModify k f l →
      p ∈ l ∨ ∃ q ∈ l, p = (q.1, f q.2) := by
  intro l
  induction l with
  | nil => intro p hp; cases hp
  | cons q rest ih =>
    intro p hp
    by_cases h : q.1 = k
    · simp only [dictModify, h, if_true] at hp
      rcases List.mem_cons.mp hp with h1 | h1
      · exact Or.inr ⟨q, List.mem_cons_self q rest, by rw [h]; exact h1⟩
      · exact Or.inl (List.mem_cons.mpr (Or.inr h1))
    · simp only [dictModify, h, if_false] at hp
      rcases List.mem_cons.mp hp with h1 | h1
      · exact Or.inl (List.mem_cons.mpr (Or.inl h1))
      · rcases ih h1 with h2 | h2
        · exact Or.inl (List.mem_cons.mpr (Or.inr h2))
        · rcases h2 with ⟨r, hr, hr1⟩
          exact Or.inr ⟨r, List.mem_cons.mpr (Or.inr hr), hr1⟩

theorem dictGet_append_of_isSome {α : Type} {k : String} {l1 : List (String × α)}
    (l2 : List (String × α)) (h : (dictGet k l1).isSome = true) :
    dictGet k (l1 ++ l2) = dictGet k l1 := by
  induction l1 with
  | nil => simp [dictGet] at h
  | cons p rest ih =>
    by_cases hp : p.1 = k
    · simp [dictGet, hp]
    · simp only [List.cons_append, dictGet, hp, if_false] at h ⊢
      exact ih h

theorem dictGet_append_of_none {α : Type} {k : String} {l1 : List (String × α)}
    (l2 : List (String × α)) (h : dictGet k l1 = none) :
    dictGet k (l1 ++ l2) = dictGet k l2 := by
  induction l1 with
  | nil => rfl
  | cons p rest ih =>
    by_cases hp : p.1 = k
    · simp [dictGet, hp] at h
    · simp only [List.cons_append, dictGet, hp, if_false] at h ⊢
      exact ih h

namespace Testfile

/- Store-invariant machinery for testfile.py. -/

theorem WFt_nil : WFt [] := ⟨List.nodup_nil, by intro p hp; cases hp⟩

theorem wf_ids_pairwise {tasks : List (String × Task)} (h : WFt tasks) :
    (dictValues tasks).Pairwise (fun a b => a.id ≠ b.id) := by
  have hkeys : keysOf tasks = tasks.map (fun p => py_str_int p.2.id) :=
    List.map_congr_left h.2
  have hnd : (tasks.map (fun p => py_str_int p.2.id)).Nodup := hkeys ▸ h.1
  have hp : tasks.Pairwise (fun p q => py_str_int p.2.id ≠ py_str_int q.2.id) :=
    List.pairwise_map.mp hnd
  have hp2 : tasks.Pairwise (fun p q => p.2.id ≠ q.2.id) :=
    hp.imp (fun hne he => hne (by rw [he]))
  exact List.pairwise_map.mpr hp2

theorem idsOfKeys_eq : ∀ {l : List (String × Task)},
    (∀ p ∈ l, p.1 = py_str_int p.2.id) → idsOfKeys l = some (l.map (fun p => p.2.id)) := by
  intro l
  induction l with
  | nil => intro _; rfl
  | cons p rest ih =>
    intro h
    have hp := h p (List.mem_cons_self p rest)
    have hr := ih (fun q hq => h q (List.mem_cons.mpr (Or.inr hq)))
    simp [idsOfKeys, hp, py_int_py_str_int, hr]

theorem le_foldl_max (l : List Int) : ∀ a : Int,
    a ≤ l.foldl max a ∧ ∀ x ∈ l, x ≤ l.foldl max a := by
  induction l with
  | nil => intro a; exact ⟨le_refl a, by intro x hx; cases hx⟩
  | cons i is ih =>
    intro a
    simp only [List.foldl_cons]
    constructor
    · exact le_trans (le_max_left a i) (ih (max a i)).1
    · intro x hx
      rcases List.mem_cons.mp hx with h | h
      · rw [h]; exact le_trans (le_max_right a i) (ih (max a i)).1
      · exact (ih (max a i)).2 x h

theorem lt_maxOf_add_one {l : List Int} {x : Int} (h : x ∈ l) : x < maxOf l + 1 := by
  cases l with
  | nil => cases h
  | cons i is =>
    have hm : maxOf (i :: is) = is.foldl max i := rfl
    rcases List.mem_cons.mp h with h1 | h1
    · have := (le_foldl_max is i).1
      rw [h1, hm]; omega
    · have := (le_foldl_max is i).2 x h1
      rw [hm]; omega

theorem get_next_id_spec {tr : TaskTracker} (h : WF tr) :
    ∃ m, get_next_id tr = some m ∧ ∀ t ∈ dictValues tr.tasks, t.id < m := by
  have h2 := h.2
  rcases htr : tr.tasks with _ | ⟨p, rest⟩
  · exact ⟨1, by simp [get_next_id, htr], by intro t ht; cases ht⟩
  · rw [htr] at h2
    have hids : idsOfKeys (p :: rest) = some ((p :: rest).map (fun q => q.2.id)) :=
      idsOfKeys_eq h2
    refine ⟨maxOf ((p :: rest).map (fun q => q.2.id)) + 1, ?_, ?_⟩
    · simp [get_next_id, htr, hids]
    · intro t ht
      have hmem : t.id ∈ (p :: rest).map (fun q => q.2.id) := by
        rcases List.mem_map.mp ht with ⟨q, hq, hq2⟩
        exact List.mem_map.mpr ⟨q, hq, by rw [hq2]⟩
      exact lt_maxOf_add_one hmem

theorem WFt_dictSet {l : List (String × Task)} (h : WFt l) (t : Task) :
    WFt (dictSet (py_str_int t.id) t l) := by
  refine ⟨keysOf_dictSet_nodup t h.1, ?_⟩
  intro p hp
  rcases mem_dictSet hp with h1 | h1
  · rw [h1]
  · exact h.2 p h1

theorem WFt_dictErase {l : List (String × Task)} (h : WFt l) (k : String) :
    WFt (dictErase k l) := by
  refine ⟨?_, ?_⟩
  · exact List.Nodup.sublist (List.Sublist.map Prod.fst (dictErase_sublist k l)) h.1
  · intro p hp
    exact h.2 p ((dictErase_sublist k l).subset hp)

theorem WFt_dictModify {l : List (String × Task)} (h : WFt l) (k : String)
    {f : Task → Task} (hf : ∀ t, (f t).id = t.id) : WFt (dictModify k f l) := by
  refine ⟨?_, ?_⟩
  · rw [show keysOf (dictModify k f l) = keysOf l from keysOf_dictModify k f l]
    exact h.1
  · intro p hp
    rcases mem_dictModify hp with h1 | h1
    · exact h.2 p h1
    · rcases h1 with ⟨q, hq, hq1⟩
      rw [hq1]
      show q.1 = py_str_int (f q.2).id
      rw [hf q.2]
      exact h.2 q hq

theorem WFt_loadFold : ∀ (entries : List (String × Record)) (acc : List (String × Task)),
    WFt acc → WFt (loadFold acc entries).1 := by
  intro entries
  induction entries with
  | nil => intro acc h; exact h
  | cons e rest ih =>
    intro acc h
    rcases e with ⟨k, r⟩
    cases hb : buildTask r with
    | ok t =>
      rw [show loadFold acc ((k, r) :: rest) = loadFold (dictSet (py_str_int t.id) t acc) rest
        from by simp [loadFold, hb]]
      exact ih _ (WFt_dictSet h t)
    | error e2 =>
      rw [show loadFold acc ((k, r) :: rest) = (acc, some e2) from by simp [loadFold, hb]]
      exact h

theorem WF_applyOp {tr : TaskTracker} (h : WF tr) (op : Op) : WF (applyOp tr op) := by
  cases op with
  | load =>
    cases hf : tr.file with
    | absent => simpa [applyOp, hf] using h
    | blank => simpa [applyOp, hf] using h
    | obj entries =>
      rw [show applyOp tr .load = { tr with tasks := (loadFold tr.tasks entries).1 } from by
        simp [applyOp, hf]]
      exact WFt_loadFold entries tr.tasks h
  | add d now =>
    cases hg : get_next_id tr with
    | none =>
      have : add_task tr d now = none := by simp [add_task, hg]
      simpa [applyOp, this] using h
    | some m =>
      have hadd : add_task tr d now = some (⟨m, d, .TODO, now⟩,
          save_tasks { tr with
            tasks := dictSet (py_str_int m) ⟨m, d, .TODO, now⟩ tr.tasks }) := by
        simp [add_task, hg]
      rw [show applyOp tr (.add d now) = save_tasks { tr with
        tasks := dictSet (py_str_int m) ⟨m, d, .TODO, now⟩ tr.tasks } from by
          simp [applyOp, hadd]]
      exact WFt_dictSet h ⟨m, d, .TODO, now⟩
  | update v d =>
    show WF (update_task tr v d).2
    cases hget : get_task tr v with
    | none => simpa [update_task, hget] using h
    | some t =>
      rw [show (update_task tr v d).2 = save_tasks { tr with
        tasks := dictModify (py_str_val v)
          (fun u => { u with description := d }) tr.tasks } from by
            simp [update_task, hget]]
      exact WFt_dictModify h _ (fun _ => rfl)
  | delete v =>
    show WF (delete_task tr v).2
    by_cases hd : (dictGet (py_str_val v) tr.tasks).isSome = true
    · rw [show (delete_task tr v).2 = save_tasks { tr with
        tasks := dictErase (py_str_val v) tr.tasks } from by simp [delete_task, hd]]
      exact WFt_dictErase h _
    · simpa [delete_task, hd] using h
  | markIP v =>
    show WF (mark_in_progress tr v).2
    cases hget : get_task tr v with
    | none => simpa [mark_in_progress, hget] using h
    | some t =>
      rw [show (mark_in_progress tr v).2 = save_tasks { tr with
        tasks := dictModify (py_str_val v)
          (fun u => { u with status := .IN_PROGRESS }) tr.tasks } from by
            simp [mark_in_progress, hget]]
      exact WFt_dictModify h _ (fun _ => rfl)
  | markDone v =>
    show WF (mark_done tr v).2
    cases hget : get_task tr v with
    | none => simpa [mark_done, hget] using h
    | some t =>
      rw [show (mark_done tr v).2 = save_tasks { tr with
        tasks := dictModify (py_str_val v)
          (fun u => { u with status := .DONE }) tr.tasks } from by
            simp [mark_done, hget]]
      exact WFt_dictModify h _ (fun _ => rfl)

theorem reachable_wf {tr : TaskTracker} (h : Reachable tr) : WF tr := by
  induction h with
  | start fs tr1 hinit =>
    cases fs with
    | absent =>
      have : tr1 = { tasks := [], file := .absent } := by
        simpa [init] using hinit.symm
      rw [this]
      exact WFt_nil
    | blank => simp [init] at hinit
    | obj entries =>
      have hwf := WFt_loadFold entries [] WFt_nil
      rcases hl : loadFold [] entries with ⟨ts, eo⟩
      rw [hl] at hwf
      cases eo with
      | none =>
        rw [show init (.obj entries) = .ok { tasks := ts, file := .obj entries } from by
          simp [init, hl]] at hinit
        injection hinit with h2
        rw [← h2]
        exact hwf
      | some e =>
        rw [show init (.obj entries) = .error e from by simp [init, hl]] at hinit
        cases hinit
  | step tr1 op hr ih => exact WF_applyOp ih op

/- Serialization round trip for testfile.py. -/

theorem buildTask_to_dict (t : Task) : buildTask t.to_dict = .ok t := by
  cases t with
  | mk i d st c => cases st <;> rfl

theorem loadFold_serialize : ∀ (l acc : List (String × Task)),
    (∀ p ∈ l, p.1 = py_str_int p.2.id) → (keysOf l).Nodup →
    (∀ p ∈ l, p.1 ∉ keysOf acc) →
    loadFold acc (serialize l) = (acc ++ l, none) := by
  intro l
  induction l with
  | nil => intro acc _ _ _; simp [loadFold, serialize]
  | cons p rest ih =>
    intro acc hkey hnd hdisj
    have hp := hkey p (List.mem_cons_self p rest)
    have hser : serialize (p :: rest) = (p.1, p.2.to_dict) :: serialize rest := rfl
    rw [hser]
    have hstep : loadFold acc ((p.1, p.2.to_dict) :: serialize rest) =
        loadFold (dictSet (py_str_int p.2.id) p.2 acc) (serialize rest) := by
      simp [loadFold, buildTask_to_dict]
    rw [hstep]
    have hset : dictSet (py_str_int p.2.id) p.2 acc = acc ++ [p] := by
      rw [← hp, dictSet_not_mem p.2 (hdisj p (List.mem_cons_self p rest))]
    rw [hset]
    rw [keysOf_cons, List.nodup_cons] at hnd
    have hdisj2 : ∀ q ∈ rest, q.1 ∉ keysOf (acc ++ [p]) := by
      intro q hq
      rw [keysOf_append]
      intro hmem
      rcases List.mem_append.mp hmem with h1 | h1
      · exact hdisj q (List.mem_cons.mpr (Or.inr hq)) h1
      · have hq1 : q.1 = p.1 := by simpa [keysOf] using h1
        exact hnd.1 (hq1 ▸ List.mem_map.mpr ⟨q, hq, rfl⟩)
    have hih := ih (acc ++ [p]) (fun q hq => hkey q (List.mem_cons.mpr (Or.inr hq))) hnd.2 hdisj2
    rw [hih]
    simp

theorem save_then_fresh_load {tr : TaskTracker} (h : WF tr) :
    init (save_tasks tr).file =
      .ok { tasks := tr.tasks, file := .obj (serialize tr.tasks) } := by
  have hl := loadFold_serialize tr.tasks [] h.2 h.1
    (by intro p _; exact List.not_mem_nil p.1)
  rw [List.nil_append] at hl
  show init (.obj (serialize tr.tasks)) = _
  simp [init, hl]

end Testfile

namespace Testfile

/-- C2 counterexample: starting from the empty store, add twice (ids 1 and 2),
delete task 2 - the highest-numbered task - then add again: the new add assigns
id 2, an id that was previously deleted, refuting both the general non-reuse
claim and its deleting-the-highest-task instance. -/
theorem C2_counterexample :
    add_task tr0 "a" "t1" = some (task1, trS1) ∧
    add_task trS1 "b" "t2" = some (task2, trS2) ∧
    delete_task trS2 (.int 2) = (true, trS1) ∧
    (add_task trS1 "c" "t3").map (fun p => p.1.id) = some 2 :=
  ⟨rfl, rfl, rfl, rfl⟩

/-- C2 (amended): an id assigned by add is distinct from - in fact strictly
greater than - every id present in the store at the time of the add; ids of
previously deleted tasks are not protected, and in particular deleting the
highest-numbered task and then adding can reuse its id, while deleting a task
below the current maximum leaves a gap for as long as a larger id remains. -/
theorem C2_next_id_exceeds_present (tr : TaskTracker) (h : WF tr) :
    ∃ m, get_next_id tr = some m ∧ ∀ t ∈ dictValues tr.tasks, t.id < m :=
  get_next_id_spec h

/-- Witness for C2 at the concrete one-task store. -/
theorem C2_witness :
    ∃ m, get_next_id trS1 = some m ∧ ∀ t ∈ dictValues trS1.tasks, t.id < m :=
  C2_next_id_exceeds_present trS1 ⟨by decide, by decide⟩

/-- C4: on an id that is not present, update, delete, mark_in_progress and
mark_done return False and leave the whole state - live dict and backing
file - unchanged; on a present id they return True. -/
theorem C4_absent_false_present_true (tr : TaskTracker) (v : PyVal) (d : String) :
    (get_task tr v = none →
      update_task tr v d = (false, tr) ∧ delete_task tr v = (false, tr) ∧
      mark_in_progress tr v = (false, tr) ∧ mark_done tr v = (false, tr)) ∧
    (get_task tr v ≠ none →
      (update_task tr v d).1 = true ∧ (delete_task tr v).1 = true ∧
      (mark_in_progress tr v).1 = true ∧ (mark_done tr v).1 = true) := by
  constructor
  · intro hget
    have hd : (dictGet (py_str_val v) tr.tasks).isSome = false := by
      rw [show dictGet (py_str_val v) tr.tasks = none from hget]; rfl
    exact ⟨by simp [update_task, hget], by simp [delete_task, hd],
      by simp [mark_in_progress, hget], by simp [mark_done, hget]⟩
  · intro hne
    rcases hs : get_task tr v with _ | t
    · exact absurd hs hne
    · have hd : (dictGet (py_str_val v) tr.tasks).isSome = true := by
        rw [show dictGet (py_str_val v) tr.tasks = some t from hs]; rfl
      exact ⟨by simp [update_task, hs], by simp [delete_task, hd],
        by simp [mark_in_progress, hs], by simp [mark_done, hs]⟩

/-- Witness for C4: id 2 is absent from `trS1` and id 1 is present. -/
theorem C4_witness :
    update_task trS1 (.int 2) "d" = (false, trS1) ∧ (delete_task trS1 (.int 1)).1 = true :=
  ⟨((C4_absent_false_present_true trS1 (.int 2) "d").1 (by decide)).1,
   ((C4_absent_false_present_true trS1 (.int 1) "x").2 (by decide)).2.1⟩

/-- C5: every mutating operation that succeeds leaves the backing file holding
exactly the full serialized collection; the read operations are embedded as
pure functions of the state (get_task, get_all_tasks, get_tasks_by_status
perform no assignment and no save in the source), so they change neither the
live dict nor the file by construction. -/
theorem C5_mutations_persist (tr : TaskTracker) (v : PyVal) (d now : String)
    (t : Task) (tr1 : TaskTracker) :
    (add_task tr d now = some (t, tr1) → persisted tr1) ∧
    ((update_task tr v d).1 = true → persisted (update_task tr v d).2) ∧
    ((delete_task tr v).1 = true → persisted (delete_task tr v).2) ∧
    ((mark_in_progress tr v).1 = true → persisted (mark_in_progress tr v).2) ∧
    ((mark_done tr v).1 = true → persisted (mark_done tr v).2) := by
  refine ⟨?_, ?_, ?_, ?_, ?_⟩
  · intro hadd
    unfold add_task at hadd
    cases hg : get_next_id tr with
    | none => rw [hg] at hadd; cases hadd
    | some m =>
      rw [hg] at hadd
      simp only [Option.some.injEq, Prod.mk.injEq] at hadd
      rw [← hadd.2]
      rfl
  · intro hu
    cases hget : get_task tr v with
    | none =>
      rw [show update_task tr v d = (false, tr) from by simp [update_task, hget]] at hu
      cases hu
    | some t2 =>
      rw [show update_task tr v d = (true, save_tasks { tr with
        tasks := dictModify (py_str_val v)
          (fun u => { u with description := d }) tr.tasks }) from by simp [update_task, hget]]
      rfl
  · intro hu
    by_cases hd : (dictGet (py_str_val v) tr.tasks).isSome = true
    · rw [show delete_task tr v = (true, save_tasks { tr with
        tasks := dictErase (py_str_val v) tr.tasks }) from by simp [delete_task, hd]]
      rfl
    · rw [show delete_task tr v = (false, tr) from by simp [delete_task, hd]] at hu
      cases hu
  · intro hu
    cases hget : get_task tr v with
    | none =>
      rw [show mark_in_progress tr v = (false, tr) from by simp [mark_in_progress, hget]] at hu
      cases hu
    | some t2 =>
      rw [show mark_in_progress tr v = (true, save_tasks { tr with
        tasks := dictModify (py_str_val v)
          (fun u => { u with status := .IN_PROGRESS }) tr.tasks }) from by
            simp [mark_in_progress, hget]]
      rfl
  · intro hu
    cases hget : get_task tr v with
    | none =>
      rw [show mark_done tr v = (false, tr) from by simp [mark_done, hget]] at hu
      cases hu
    | some t2 =>
      rw [show mark_done tr v = (true, save_tasks { tr with
        tasks := dictModify (py_str_val v)
          (fun u => { u with status := .DONE }) tr.tasks }) from by simp [mark_done, hget]]
      rfl

/-- Witness for C5 at concrete successful mutations on `trS1`. -/
theorem C5_witness :
    persisted trAdd3 ∧
    persisted (update_task trS1 (.int 1) "d").2 ∧
    persisted (delete_task trS1 (.int 1)).2 ∧
    persisted (mark_in_progress trS1 (.int 1)).2 ∧
    persisted (mark_done trS1 (.int 1)).2 :=
  ⟨(C5_mutations_persist trS1 (.int 1) "d" "t3" task2d trAdd3).1 (by decide),
   (C5_mutations_persist trS1 (.int 1) "d" "t3" task2d trAdd3).2.1 (by decide),
   (C5_mutations_persist trS1 (.int 1) "d" "t3" task2d trAdd3).2.2.1 (by decide),
   (C5_mutations_persist trS1 (.int 1) "d" "t3" task2d trAdd3).2.2.2.1 (by decide),
   (C5_mutations_persist trS1 (.int 1) "d" "t3" task2d trAdd3).2.2.2.2 (by decide)⟩

/-- C10: whether the id argument is the integer n or its decimal string form,
get, update, delete, mark_in_progress and mark_done agree on result and
resulting state, because each begins by keying on `str(task_id)`. -/
theorem C10_int_and_string_ids_agree (tr : TaskTracker) (n : Int) (d : String) :
    get_task tr (.int n) = get_task tr (.str (py_str_int n)) ∧
    update_task tr (.int n) d = update_task tr (.str (py_str_int n)) d ∧
    delete_task tr (.int n) = delete_task tr (.str (py_str_int n)) ∧
    mark_in_progress tr (.int n) = mark_in_progress tr (.str (py_str_int n)) ∧
    mark_done tr (.int n) = mark_done tr (.str (py_str_int n)) :=
  ⟨rfl, rfl, rfl, rfl, rfl⟩

end Testfile

/-- C1: evaluation of the TaskTracker.py save path at a concrete store holding
one task. save_task truncates the backing file on open and then raises
TypeError from `json.dumps(data, f, indent=2)` without writing anything, and a
fresh load from the truncated file raises AttributeError from `os.path.exist`,
so save followed by a fresh load reproduces no task collection. The
testfile.py pair save_tasks/load_tasks does satisfy the round-trip law, see
`Testfile.save_then_fresh_load`. -/
theorem C1_trackerpy_roundtrip_fails :
    TrackerPy.save_task TrackerPy.trPy1 =
      ({ tasks := TrackerPy.trPy1.tasks, file := .blank }, .error .typeError) ∧
    TrackerPy.load_tasks { tasks := [], file := .blank } = .error .attributeError :=
  ⟨rfl, rfl⟩

/-- C8 counterexample: TaskTracker.py serializes the creation time under the
key `created`, which is neither `createdAt` nor `created_at`, refuting the
claimed field-name set for that serializer. -/
theorem C8_counterexample :
    keysOf (TrackerPy.Task.task_dict TrackerPy.taskPy1) =
      ["id", "description", "status", "created"] ∧
    ("created" : String) ≠ "createdAt" ∧ ("created" : String) ≠ "created_at" :=
  ⟨rfl, by decide, by decide⟩

/-- C8 (amended): every serialized record has exactly the field names id
(a number), description, status (one of the three enumerated strings), and a
creation-time key - `created_at` in testfile.py but `created` in
TaskTracker.py - and in each file the spelling written is exactly the spelling
its own loader reads back (the record round-trips through the loader). -/
theorem C8_record_fields (t : Testfile.Task) (u : TrackerPy.Task) :
    keysOf t.to_dict = ["id", "description", "status", "created_at"] ∧
    dictGet "id" t.to_dict = some (.num t.id) ∧
    dictGet "status" t.to_dict = some (.str t.status.value) ∧
    (t.status.value = "todo" ∨ t.status.value = "in-progress" ∨
      t.status.value = "done") ∧
    Testfile.buildTask t.to_dict = .ok t ∧
    keysOf u.task_dict = ["id", "description", "status", "created"] ∧
    TrackerPy.buildTask u.task_dict = .ok u := by
  refine ⟨rfl, rfl, rfl, ?_, Testfile.buildTask_to_dict t, rfl, ?_⟩
  · cases t.status <;> simp [TaskStatus.value]
  · cases u with
    | mk i d st c => cases st <;> rfl

theorem except_bind_ok {e a b : Type} (x : a) (f : a → Except e b) :
    (Except.ok x : Except e a) >>= f = f x := rfl

theorem except_bind_error {e a b : Type} (err : e) (f : a → Except e b) :
    (Except.error err : Except e a) >>= f = .error err := rfl

namespace Testfile

theorem buildTask_error_of_bad_status {r : Record} {s : String}
    (hs : dictGet "status" r = some (.str s)) (hv : TaskStatus.fromValue s = none) :
    ∃ e, buildTask r = .error e := by
  have h3 : field r "status" = .ok (.str s) := by simp [field, hs]
  have h7 : asStatus (.str s) = .error .valueError := by simp [asStatus, hv]
  unfold buildTask
  cases h1 : field r "id" with
  | error e => exact ⟨e, rfl⟩
  | ok idv =>
    cases h2 : field r "description" with
    | error e => exact ⟨e, rfl⟩
    | ok dv =>
      cases h4 : field r "created_at" with
      | error e => exact ⟨e, by simp only [except_bind_ok, except_bind_error, h3]⟩
      | ok cv =>
        cases h5 : asInt idv with
        | error e => exact ⟨e, by simp only [except_bind_ok, except_bind_error, h3, h5]⟩
        | ok i =>
          cases h6 : asStr dv with
          | error e =>
            exact ⟨e, by simp only [except_bind_ok, except_bind_error, h3, h5, h6]⟩
          | ok d =>
            exact ⟨.valueError,
              by simp only [except_bind_ok, except_bind_error, h3, h5, h6, h7]⟩

theorem loadFold_isSome_of_bad :
    ∀ (entries : List (String × Record)) (acc : List (String × Task)),
      (∃ p ∈ entries, ∃ e, buildTask p.2 = .error e) →
      (loadFold acc entries).2.isSome = true := by
  intro entries
  induction entries with
  | nil =>
    intro acc h
    rcases h with ⟨p, hp, _⟩
    cases hp
  | cons q rest ih =>
    intro acc h
    rcases q with ⟨k, r⟩
    cases hb : buildTask r with
    | error e => simp [loadFold, hb]
    | ok t =>
      rw [show loadFold acc ((k, r) :: rest) = loadFold (dictSet (py_str_int t.id) t acc) rest
        from by simp [loadFold, hb]]
      rcases h with ⟨p, hp, e, he⟩
      rcases List.mem_cons.mp hp with h1 | h1
      · have he2 : buildTask r = .error e := by
          rw [h1] at he
          simpa using he
        rw [hb] at he2
        cases he2
      · exact ih _ ⟨p, h1, e, he⟩

end Testfile

namespace Testfile

/-- C3: if the parsed backing file has some entry whose status field is a
string outside the three enumerated values, constructing a tracker from it
fails with a raised error; no task collection is produced, so in particular no
task is silently given the default TODO status. -/
theorem C3_load_fails_on_bad_status (entries : List (String × Record))
    (h : ∃ p ∈ entries, ∃ s, dictGet "status" p.2 = some (.str s) ∧
      TaskStatus.fromValue s = none) :
    ∃ e, init (.obj entries) = .error e := by
  have hbad : ∃ p ∈ entries, ∃ e, buildTask p.2 = .error e := by
    rcases h with ⟨p, hp, s, hs, hv⟩
    rcases buildTask_error_of_bad_status hs hv with ⟨e, he⟩
    exact ⟨p, hp, e, he⟩
  have hsome := loadFold_isSome_of_bad entries [] hbad
  rcases hl : loadFold [] entries with ⟨ts, eo⟩
  rw [hl] at hsome
  cases eo with
  | none => simp at hsome
  | some e => exact ⟨e, by simp [init, hl]⟩

/-- Witness for C3 at a concrete file whose only record carries the status
string `later`. -/
theorem C3_witness : ∃ e, init (.obj badEntries) = .error e :=
  C3_load_fails_on_bad_status badEntries
    ⟨("1", badRec), List.mem_singleton.mpr rfl, "later", rfl, rfl⟩

theorem sortById_spec {ts : List Task} (hp : ts.Pairwise (fun a b => a.id ≠ b.id)) :
    (sortById ts).Pairwise (fun a b => a.id < b.id) ∧ List.Perm (sortById ts) ts := by
  have hperm : List.Perm (sortById ts) ts := List.perm_insertionSort _ ts
  have hsorted0 : List.Sorted (fun a b : Task => a.id ≤ b.id) (sortById ts) :=
    List.sorted_insertionSort (fun a b : Task => a.id ≤ b.id) ts
  have hsorted : (sortById ts).Pairwise (fun a b => a.id ≤ b.id) := hsorted0
  have hne : (sortById ts).Pairwise (fun a b => a.id ≠ b.id) :=
    (List.Perm.pairwise_iff (fun h => Ne.symm h) hperm).mpr hp
  refine ⟨?_, hperm⟩
  exact (hsorted.and hne).imp (fun hab => lt_of_le_of_ne hab.1 hab.2)

/-- C6: for a store satisfying the invariant, get_all_tasks returns the held
tasks in strictly ascending id order, and get_tasks_by_status on a valid
status string returns exactly the held tasks with that status, in the same
strictly ascending order. -/
theorem C6_listing_sorted_and_filtered (tr : TaskTracker) (h : WF tr)
    (s : String) (st : TaskStatus) (hs : TaskStatus.fromValue s = some st) :
    ((get_all_tasks tr).Pairwise (fun a b => a.id < b.id) ∧
      List.Perm (get_all_tasks tr) (dictValues tr.tasks)) ∧
    ∃ l, get_tasks_by_status tr (.str s) = .ok l ∧
      l.Pairwise (fun a b => a.id < b.id) ∧
      ∀ t : Task, t ∈ l ↔ t ∈ dictValues tr.tasks ∧ t.status = st := by
  have hne := wf_ids_pairwise h
  constructor
  · exact sortById_spec hne
  · refine ⟨sortById ((dictValues tr.tasks).filter (fun t => decide (t.status = st))),
      ?_, ?_, ?_⟩
    · simp [get_tasks_by_status, statusEnum, hs]
    · exact (sortById_spec (hne.filter (fun t => decide (t.status = st)))).1
    · intro t
      have hperm := (sortById_spec (hne.filter (fun t => decide (t.status = st)))).2
      rw [hperm.mem_iff, List.mem_filter]
      simp

/-- Witness for C6 at the concrete two-task store and the status string
`done`. -/
theorem C6_witness :
    ((get_all_tasks trS2).Pairwise (fun a b => a.id < b.id) ∧
      List.Perm (get_all_tasks trS2) (dictValues trS2.tasks)) ∧
    ∃ l, get_tasks_by_status trS2 (.str "done") = .ok l ∧
      l.Pairwise (fun a b => a.id < b.id) ∧
      ∀ t : Task, t ∈ l ↔ t ∈ dictValues trS2.tasks ∧ t.status = .DONE :=
  C6_listing_sorted_and_filtered trS2 ⟨by decide, by decide⟩ "done" .DONE rfl

/-- C9: in every state reachable from a freshly constructed tracker by load,
add, update, delete, mark_in_progress and mark_done, no two distinct held
tasks share an id. -/
theorem C9_ids_unique_reachable (tr : TaskTracker) (h : Reachable tr) :
    (dictValues tr.tasks).Pairwise (fun a b => a.id ≠ b.id) :=
  wf_ids_pairwise (reachable_wf h)

/-- Witness for C9 at the store reached by constructing on an absent file and
adding one task. -/
theorem C9_witness : (dictValues trS1.tasks).Pairwise (fun a b => a.id ≠ b.id) :=
  C9_ids_unique_reachable trS1 (by
    have h := Reachable.step tr0 (.add "a" "t1") (Reachable.start .absent tr0 rfl)
    rwa [show applyOp tr0 (.add "a" "t1") = trS1 from by decide] at h)

end Testfile

theorem py_str_int_injective : Function.Injective py_str_int := by
  intro a b h
  have ha := py_int_py_str_int a
  rw [h, py_int_py_str_int] at ha
  exact (Option.some_injective Int ha).symm

theorem dictValues_append {α : Type} (l1 l2 : List (String × α)) :
    dictValues (l1 ++ l2) = dictValues l1 ++ dictValues l2 := by
  simp [dictValues]

namespace Testfile

theorem add_task_spec {tr : TaskTracker} (h : WF tr) (d now : String) :
    ∃ m, (∀ t ∈ dictValues tr.tasks, t.id < m) ∧ py_str_int m ∉ keysOf tr.tasks ∧
      add_task tr d now = some
        ({ id := m, description := d, status := .TODO, created_at := now },
         { tasks := tr.tasks ++ [(py_str_int m,
             { id := m, description := d, status := .TODO, created_at := now })],
           file := .obj (serialize (tr.tasks ++ [(py_str_int m,
             { id := m, description := d, status := .TODO, created_at := now })])) }) := by
  rcases get_next_id_spec h with ⟨m, hg, hlt⟩
  have hkey : py_str_int m ∉ keysOf tr.tasks := by
    intro hmem
    rcases List.mem_map.mp hmem with ⟨q, hq, hq1⟩
    have hq2 : q.1 = py_str_int q.2.id := h.2 q hq
    have hq3 : py_str_int q.2.id = py_str_int m := by rw [← hq2, hq1]
    have hid : q.2.id = m := py_str_int_injective hq3
    have hv : q.2 ∈ dictValues tr.tasks := List.mem_map.mpr ⟨q, hq, rfl⟩
    have := hlt q.2 hv
    omega
  have hset : dictSet (py_str_int m)
      { id := m, description := d, status := .TODO, created_at := now } tr.tasks =
      tr.tasks ++ [(py_str_int m,
        { id := m, description := d, status := .TODO, created_at := now })] :=
    dictSet_not_mem _ hkey
  refine ⟨m, hlt, hkey, ?_⟩
  unfold add_task
  rw [hg]
  simp only [hset, save_tasks]

theorem addAll_spec : ∀ (ds : List (String × String)) (tr : TaskTracker), WF tr →
    ∃ ids tr2, addAll tr ds = some (ids, tr2) ∧ WF tr2 ∧
      (∀ i ∈ ids, ∀ t ∈ dictValues tr.tasks, t.id < i) ∧
      ids.Pairwise (· < ·) ∧
      List.Forall₂ (fun (p : String × String) (i : Int) =>
        get_task tr2 (.int i) = some (Task.mk i p.1 .TODO p.2)) ds ids ∧
      (∀ k, (dictGet k tr.tasks).isSome = true →
        dictGet k tr2.tasks = dictGet k tr.tasks) := by
  intro ds
  induction ds with
  | nil =>
    intro tr h
    refine ⟨[], tr, rfl, h, ?_, List.Pairwise.nil, List.Forall₂.nil, fun k _ => rfl⟩
    intro i hi
    cases hi
  | cons pq rest ih =>
    intro tr h
    rcases pq with ⟨d, now⟩
    rcases add_task_spec h d now with ⟨m, hlt, hkey, hadd⟩
    have hWFA : WFt (tr.tasks ++ [(py_str_int m, Task.mk m d .TODO now)]) := by
      rw [← dictSet_not_mem _ hkey]
      exact WFt_dictSet h (Task.mk m d .TODO now)
    rcases ih (TaskTracker.mk
        (tr.tasks ++ [(py_str_int m, Task.mk m d .TODO now)])
        (.obj (serialize (tr.tasks ++ [(py_str_int m, Task.mk m d .TODO now)])))) hWFA with
      ⟨ids, tr2, hAll, hwf2, hgt, hpw, hfa, hpres⟩
    have h0 : dictGet (py_str_int m) tr.tasks = none := (dictGet_eq_none _ _).mpr hkey
    have h1 : dictGet (py_str_int m) (tr.tasks ++ [(py_str_int m, Task.mk m d .TODO now)]) =
        some (Task.mk m d .TODO now) := by
      rw [dictGet_append_of_none _ h0]
      simp [dictGet]
    refine ⟨m :: ids, tr2, ?_, hwf2, ?_, ?_, ?_, ?_⟩
    · simp only [addAll, hadd, hAll]
    · intro i hi t ht
      rcases List.mem_cons.mp hi with h2 | h2
      · rw [h2]; exact hlt t ht
      · have ht2 : t ∈ dictValues (tr.tasks ++ [(py_str_int m, Task.mk m d .TODO now)]) := by
          rw [dictValues_append]
          exact List.mem_append.mpr (Or.inl ht)
        exact hgt i h2 t ht2
    · rw [List.pairwise_cons]
      refine ⟨?_, hpw⟩
      intro i hi
      have hmem : Task.mk m d .TODO now
          ∈ dictValues (tr.tasks ++ [(py_str_int m, Task.mk m d .TODO now)]) := by
        rw [dictValues_append]
        exact List.mem_append.mpr (Or.inr (by simp [dictValues]))
      exact hgt i hi _ hmem
    · refine List.forall₂_cons.mpr ⟨?_, hfa⟩
      have hps : (dictGet (py_str_int m)
          (tr.tasks ++ [(py_str_int m, Task.mk m d .TODO now)])).isSome = true := by
        rw [h1]; rfl
      have h2 := hpres (py_str_int m) hps
      show dictGet (py_str_int m) tr2.tasks = some _
      rw [h2]
      exact h1
    · intro k hks
      have hks1 : (dictGet k
          (tr.tasks ++ [(py_str_int m, Task.mk m d .TODO now)])).isSome = true := by
        rw [dictGet_append_of_isSome _ hks]
        exact hks
      have h2 := hpres k hks1
      calc dictGet k tr2.tasks
          = dictGet k (tr.tasks ++ [(py_str_int m, Task.mk m d .TODO now)]) := h2
        _ = dictGet k tr.tasks := dictGet_append_of_isSome _ hks

/-- C7: from any store satisfying the invariant, a sequence of adds always
succeeds, the assigned ids are strictly increasing (hence mutually distinct),
and in the final state each newly added task is retrievable by get_task under
its assigned id, carrying the supplied description, TODO status and creation
time. -/
theorem C7_sequence_of_adds (tr : TaskTracker) (h : WF tr) (ds : List (String × String)) :
    ∃ ids tr2, addAll tr ds = some (ids, tr2) ∧ ids.Pairwise (· < ·) ∧
      List.Forall₂ (fun (p : String × String) (i : Int) =>
        get_task tr2 (.int i) = some (Task.mk i p.1 .TODO p.2)) ds ids := by
  rcases addAll_spec ds tr h with ⟨ids, tr2, h1, _, _, h4, h5, _⟩
  exact ⟨ids, tr2, h1, h4, h5⟩

/-- Witness for C7: two adds starting from the empty store. -/
theorem C7_witness : ∃ ids tr2,
    addAll tr0 [("a", "t1"), ("b", "t2")] = some (ids, tr2) ∧
    ids.Pairwise (· < ·) ∧
    List.Forall₂ (fun (p : String × String) (i : Int) =>
      get_task tr2 (.int i) = some (Task.mk i p.1 .TODO p.2)) [("a", "t1"), ("b", "t2")] ids :=
  C7_sequence_of_adds tr0 ⟨by decide, by decide⟩ [("a", "t1"), ("b", "t2")]

end Testfile
